import Mathlib

set_option maxRecDepth 8000

/-!
Verification of the multi-postgres MCP server core: the SQL statement
classifier `isSingleStatement`, the connection pool registry
(`connHash` / `getOrCreatePool`), the configuration publishing pipeline
of `loadConfig`, and the `pg_query` tool handler.

SQL texts are modelled as lists of characters (`String.data`); the
JavaScript index-based scan of `isSingleStatement` becomes a fuel-indexed
recursion on the character list, where each helper consumes the same
prefix of the input that the corresponding `indexOf` / inner loop of the
source skips.  Stateful parts (pool registry, query handler) are modelled
by explicit state passing: the registry is a value, the database client is
an oracle of statement outcomes, and the handler returns its result
together with the new registry and a trace of its observable effects.
-/

namespace MultiPostgres

/-- Character class of the source regex `/[a-zA-Z0-9_]/` used to read a
dollar-quote tag. -/
def isWordChar (c : Char) : Bool :=
  ('a' ≤ c && c ≤ 'z') || ('A' ≤ c && c ≤ 'Z') || ('0' ≤ c && c ≤ '9') || c = '_'

/-- The white space characters removed by JavaScript `String.prototype.trim`:
the ASCII white space SP, TAB, LF, CR, VT, FF; the no-break space U+00A0;
the ogham space U+1680; the Unicode space separators U+2000 to U+200A,
U+202F, U+205F and U+3000; the line and paragraph separators U+2028 and
U+2029; and the zero-width no-break space U+FEFF. -/
def isJsSpace (c : Char) : Bool :=
  c = ' ' || c = '\t' || c = '\n' || c = '\r' ||
  c = '\x0b' || c = '\x0c' || c = '\u00a0' || c = '\u1680' ||
  ('\u2000' ≤ c && c ≤ '\u200a') || c = '\u2028' || c = '\u2029' ||
  c = '\u202f' || c = '\u205f' || c = '\u3000' || c = '\ufeff'

/-- `sql.indexOf("\n", i)` followed by `i++` in the line-comment branch:
drop everything up to and including the next newline; `none` when there is
no newline (the source then returns `true`). The search may start after
the two dashes because a dash is never a newline. -/
def skipToNewline : List Char → Option (List Char)
  | [] => none
  | '\n' :: rest => some rest
  | _ :: rest => skipToNewline rest

/-- `sql.indexOf("*/", i + 2)` followed by `i = end + 2` in the
block-comment branch: drop everything up to and including the first
adjacent `*/`; `none` when the comment is unterminated. -/
def skipBlockComment : List Char → Option (List Char)
  | [] => none
  | '*' :: '/' :: rest => some rest
  | _ :: rest => skipBlockComment rest

/-- The inner loop of the single-quote branch: starting right after the
opening quote, a doubled quote is an escape, a lone quote closes the
literal, and running off the end leaves nothing to scan. -/
def skipSingleQuoted : List Char → List Char
  | [] => []
  | '\'' :: '\'' :: rest => skipSingleQuoted rest
  | '\'' :: rest => rest
  | _ :: rest => skipSingleQuoted rest

/-- The inner loop of the double-quote branch: skip to the character after
the next double quote; running off the end leaves nothing to scan. -/
def skipDoubleQuoted : List Char → List Char
  | [] => []
  | '"' :: rest => rest
  | _ :: rest => skipDoubleQuoted rest

/-- Whether `tag` occurs at the head of the second list. -/
def matchesAt : List Char → List Char → Bool
  | [], _ => true
  | _ :: _, [] => false
  | t :: ts, c :: cs => t == c && matchesAt ts cs

/-- `sql.indexOf(tag, j + 1)` followed by `i = endIdx + tag.length` in the
dollar-quote branch: drop everything up to and including the first
occurrence of `tag`; `none` when the body is unterminated. -/
def skipToTag (tag : List Char) : List Char → Option (List Char)
  | [] => none
  | c :: rest =>
    if matchesAt tag (c :: rest) then some ((c :: rest).drop tag.length)
    else skipToTag tag rest

/-- The scanning loop of `isSingleStatement`, with an explicit fuel that
bounds the number of loop iterations.  Each branch is the corresponding
`if` of the source in order: line comment, block comment, single-quoted
literal, double-quoted identifier, dollar-quoted body, semicolon check,
and the default `i++`.  Any fuel larger than the input length gives the
verdict the source computes (`scanF_congr`). -/
def scanF : Nat → List Char → Bool
  | 0, _ => true
  | _ + 1, [] => true
  | fuel + 1, ch :: rest =>
    if ch = '-' ∧ rest.head? = some '-' then
      match skipToNewline rest with
      | none => true
      | some r => scanF fuel r
    else if ch = '/' ∧ rest.head? = some '*' then
      match skipBlockComment rest.tail with
      | none => true
      | some r => scanF fuel r
    else if ch = '\'' then
      scanF fuel (skipSingleQuoted rest)
    else if ch = '"' then
      scanF fuel (skipDoubleQuoted rest)
    else if ch = '$' then
      if (rest.dropWhile isWordChar).head? = some '$' then
        match skipToTag ('$' :: (rest.takeWhile isWordChar ++ ['$']))
            ((rest.dropWhile isWordChar).tail) with
        | none => true
        | some r => scanF fuel r
      else scanF fuel rest
    else if ch = ';' then
      -- `sql.substring(i + 1).trim().length > 0`: some non-space follows
      if rest.any (fun c => !(isJsSpace c)) then false else scanF fuel rest
    else scanF fuel rest

/-- The scan run with enough fuel to finish. -/
def scan (l : List Char) : Bool := scanF (l.length + 1) l

/-- `isSingleStatement` of the source: `true` exactly when the scan never
finds a semicolon, outside comments and quoted contexts, that is followed
by non-whitespace content. -/
def isSingleStatement (sql : String) : Bool := scan sql.data

/-- Modelled from the spec: the list of suffixes of the text that follow a
boundary marker (`;`) occurring outside line comments, block comments,
single-quoted literals, double-quoted identifiers, and dollar-tagged
bodies.  This collector scans the whole text with the same lexical
contexts (unterminated constructs consume the rest) but renders no
verdict: the spec's condition "no semicolon outside those contexts is
followed by further non-whitespace content" is that every collected
suffix is whitespace-only. -/
def semiSuffF : Nat → List Char → List (List Char)
  | 0, _ => []
  | _ + 1, [] => []
  | fuel + 1, ch :: rest =>
    if ch = '-' ∧ rest.head? = some '-' then
      match skipToNewline rest with
      | none => []
      | some r => semiSuffF fuel r
    else if ch = '/' ∧ rest.head? = some '*' then
      match skipBlockComment rest.tail with
      | none => []
      | some r => semiSuffF fuel r
    else if ch = '\'' then
      semiSuffF fuel (skipSingleQuoted rest)
    else if ch = '"' then
      semiSuffF fuel (skipDoubleQuoted rest)
    else if ch = '$' then
      if (rest.dropWhile isWordChar).head? = some '$' then
        match skipToTag ('$' :: (rest.takeWhile isWordChar ++ ['$']))
            ((rest.dropWhile isWordChar).tail) with
        | none => []
        | some r => semiSuffF fuel r
      else semiSuffF fuel rest
    else if ch = ';' then
      rest :: semiSuffF fuel rest
    else semiSuffF fuel rest

/-- The collector at sufficient fuel. -/
def outsideSemiSuffixes (l : List Char) : List (List Char) := semiSuffF (l.length + 1) l

/-- One iteration of the scanning loop of `isSingleStatement`, as a
partial transition function on the unread remainder of the text: `some`
is the remainder at the next iteration, `none` means the loop stops here
(end of input, an unterminated construct, or a rejecting semicolon). -/
def step : List Char → Option (List Char)
  | [] => none
  | ch :: rest =>
    if ch = '-' ∧ rest.head? = some '-' then
      skipToNewline rest
    else if ch = '/' ∧ rest.head? = some '*' then
      skipBlockComment rest.tail
    else if ch = '\'' then
      some (skipSingleQuoted rest)
    else if ch = '"' then
      some (skipDoubleQuoted rest)
    else if ch = '$' then
      if (rest.dropWhile isWordChar).head? = some '$' then
        skipToTag ('$' :: (rest.takeWhile isWordChar ++ ['$']))
          ((rest.dropWhile isWordChar).tail)
      else some rest
    else if ch = ';' then
      if rest.any (fun c => !(isJsSpace c)) then none else some rest
    else some rest

/-- The scan, started on the first list, eventually has the second list as
its unread remainder.  Because `step` stops at a rejecting semicolon,
reachability of a state implies that no earlier out-of-context semicolon
was followed by non-whitespace content. -/
inductive ScanReach : List Char → List Char → Prop
  | refl (l : List Char) : ScanReach l l
  | tail (l m r : List Char) : step l = some m → ScanReach m r → ScanReach l r

/-- A single-quote body with no closing quote under the source's escape
rule: the inner loop runs off the end of the input. -/
def noSingleQuoteCloser : List Char → Bool
  | [] => true
  | '\'' :: '\'' :: rest => noSingleQuoteCloser rest
  | '\'' :: _ => false
  | _ :: rest => noSingleQuoteCloser rest

/-! ### Configuration descriptors and the pool registry -/

/-- The `ssl` field of a descriptor: the literal `true` or an object of
TLS options (`SslConfigSchema`). -/
inductive SslConfig where
  | enabled : SslConfig
  | custom (rejectUnauthorized : Option Bool) (ca cert key : Option String) : SslConfig
deriving DecidableEq

/-- One parsed connection descriptor (`DbConnectionSchema` after zod
validation and defaulting). -/
structure DbConnection where
  label : String
  host : Option String
  port : Nat
  user : Option String
  password : String
  database : Option String
  url : Option String
  enabled : Bool
  ssl : Option SslConfig
  readOnly : Bool
  poolSize : Nat
deriving DecidableEq

/-- `z.boolean().default(true)` applied to the raw `readOnly` field: an
absent field becomes `true`. -/
def readOnlyDefault (raw : Option Bool) : Bool := raw.getD true

/-- The record serialized by `connHash` via `JSON.stringify`.  Equality of
the produced JSON strings is equality of this record, because the fields
are serialized in a fixed order and JSON string encoding is injective. -/
structure ConnHash where
  h : Option String
  p : Nat
  u : Option String
  pw : String
  d : Option String
  url : Option String
  ssl : Option SslConfig
  ps : Nat
deriving DecidableEq

/-- `connHash` of the source: the fingerprint over exactly the
connection-relevant fields of a descriptor. -/
def connHash (c : DbConnection) : ConnHash :=
  { h := c.host, p := c.port, u := c.user, pw := c.password,
    d := c.database, url := c.url, ssl := c.ssl, ps := c.poolSize }

/-- One entry of the `pools` map: the live pool (identified by the number
the registry drew when constructing it) and the fingerprint it was built
from. -/
structure PoolEntry where
  pool : Nat
  hash : ConnHash
deriving DecidableEq

/-- The registry state: the label-to-entry map (`pools`), a counter
supplying identities for newly constructed pools, and the identities of
pools on which `end()` has been called. -/
structure Registry where
  pools : List (String × PoolEntry)
  nextId : Nat
  closed : List Nat
deriving DecidableEq

/-- `Map.get`: the entry stored under a label, if any. -/
def mapGet (m : List (String × PoolEntry)) (k : String) : Option PoolEntry :=
  (m.find? (fun e => e.1 == k)).map (fun e => e.2)

/-- `Map.set`: replace the entry under an existing key in place, otherwise
append a new binding. -/
def mapSet : List (String × PoolEntry) → String → PoolEntry → List (String × PoolEntry)
  | [], k, v => [(k, v)]
  | (a, b) :: t, k, v => if a == k then (k, v) :: t else (a, b) :: mapSet t k v

/-- `getOrCreatePool` of the source: return the cached pool when the
fingerprint matches; otherwise close the stale pool (if any), construct a
fresh one, and install it under the label. -/
def getOrCreatePool (r : Registry) (conn : DbConnection) : Nat × Registry :=
  let hash := connHash conn
  match mapGet r.pools conn.label with
  | some existing =>
    if existing.hash = hash then (existing.pool, r)
    else
      (r.nextId,
       { pools := mapSet r.pools conn.label { pool := r.nextId, hash := hash },
         nextId := r.nextId + 1,
         closed := existing.pool :: r.closed })
  | none =>
      (r.nextId,
       { pools := mapSet r.pools conn.label { pool := r.nextId, hash := hash },
         nextId := r.nextId + 1,
         closed := r.closed })

/-! ### The configuration publishing pipeline of `loadConfig` -/

/-- The deduplication of `loadConfig`:
`connections.filter((c, i, arr) => arr.findIndex(x => x.label === c.label) === i)`,
keeping exactly the elements that are the first occurrence of their
label. -/
def dedupByLabel (connections : List DbConnection) : List DbConnection :=
  ((connections.enum).filter
      (fun ic => connections.findIdx (fun x => x.label == ic.2.label) == ic.1)).map
    (fun ic => ic.2)

/-- The optional process-wide `--label` restriction of `loadConfig`. -/
def applyLabelFilter (connections : List DbConnection) : Option String → List DbConnection
  | some f => connections.filter (fun c => c.label == f)
  | none => connections

/-- The snapshot published by `loadConfig` after parsing: deduplicate by
label (first occurrence wins), drop disabled entries
(`c.enabled !== false`), and apply the process-wide label filter. -/
def publishConnections (connections : List DbConnection) (labelFilter : Option String) :
    List DbConnection :=
  applyLabelFilter ((dedupByLabel connections).filter (fun c => c.enabled != false)) labelFilter

/-! ### The `pg_query` handler -/

/-- A positional query parameter
(`z.union([z.string(), z.number(), z.boolean(), z.null()])`). -/
inductive Param where
  | str (s : String) : Param
  | num (n : Int) : Param
  | bool (b : Bool) : Param
  | null : Param
deriving DecidableEq

/-- The relevant parts of a `pg` query result: the field names, the rows
(kept abstract as one rendered value per row), and `rowCount` (which pg
may report as null). -/
structure QueryRes where
  fields : List String
  rows : List String
  rowCount : Option Nat
deriving DecidableEq

/-- The outcomes the database client would report for the statements the
handler can issue inside one call: the `BEGIN` variant, the caller's
statement, `COMMIT`, and `ROLLBACK`.  The source discards the rollback
outcome (`client.query("ROLLBACK").catch(() => {})`), which is why no
definition below reads `rollbackOutcome`. -/
instance {ε α : Type} [DecidableEq ε] [DecidableEq α] : DecidableEq (Except ε α) := fun a b =>
  match a, b with
  | Except.ok x, Except.ok y =>
    if h : x = y then isTrue (by rw [h]) else isFalse (by intro hc; cases hc; exact h rfl)
  | Except.error x, Except.error y =>
    if h : x = y then isTrue (by rw [h]) else isFalse (by intro hc; cases hc; exact h rfl)
  | Except.ok _, Except.error _ => isFalse (by intro hc; cases hc)
  | Except.error _, Except.ok _ => isFalse (by intro hc; cases hc)

structure Oracle where
  beginOutcome : Except String Unit
  queryOutcome : Except String QueryRes
  commitOutcome : Except String Unit
  rollbackOutcome : Except String Unit
deriving DecidableEq

/-- The content returned to the MCP caller: an `isError` text, a plain
informational text, or the structured JSON payload of a row-returning
query (modelled structurally rather than as the serialized string). -/
inductive ToolResult where
  | errorMsg (text : String) : ToolResult
  | info (text : String) : ToolResult
  | payload (columns : List String) (rows : List String) (rowCount : Option Nat)
      (truncated : Bool) (totalRows limit : Option Nat) : ToolResult
deriving DecidableEq

/-- Observable effects of one handler call: how many times the descriptor
was resolved (`getConnection`), how many connections were borrowed from a
pool (`pool.connect()`), and the SQL statements issued on the borrowed
client in order. -/
structure Trace where
  resolves : Nat
  borrows : Nat
  commands : List String
deriving DecidableEq

/-- `connections.find(c => c.label === label)` inside `getConnection`. -/
def findConnection (cfg : List DbConnection) (label : String) : Option DbConnection :=
  cfg.find? (fun c => c.label == label)

/-- `connections.map(c => c.label).join(", ") || "(none)"`. -/
def availableLabels (cfg : List DbConnection) : String :=
  let joined := String.intercalate (", ") (cfg.map (fun c => c.label))
  if joined = "" then ("(none)") else joined

/-- The message of the error thrown by `getConnection` when a label is
absent. -/
def labelNotFoundMsg (cfg : List DbConnection) (label : String) : String :=
  ("Database \"" ++ label ++ "\" not found. Available: ") ++ availableLabels cfg

/-- The transaction body of the `pg_query` handler: issue the `BEGIN`
variant chosen by the descriptor's `readOnly` flag, then the caller's
statement, then `COMMIT`; on any error inside the `try`, issue `ROLLBACK`
(whose own outcome the source discards) and rethrow the original error.
Returns the propagated outcome and the statements issued. -/
def runTransaction (readOnly : Bool) (query : String) (oracle : Oracle) :
    Except String QueryRes × List String :=
  let beginCmd := if readOnly then ("BEGIN TRANSACTION READ ONLY") else ("BEGIN")
  match oracle.beginOutcome with
  | Except.error e => (Except.error e, [beginCmd])
  | Except.ok _ =>
    match oracle.queryOutcome with
    | Except.ok res =>
      match oracle.commitOutcome with
      | Except.ok _ => (Except.ok res, [beginCmd, query, "COMMIT"])
      | Except.error e => (Except.error e, [beginCmd, query, "COMMIT", "ROLLBACK"])
    | Except.error e => (Except.error e, [beginCmd, query, "ROLLBACK"])

/-- The success formatting of the `pg_query` handler: the no-rows text, or
the structured payload with `limit` truncation and its annotations. -/
def buildSuccess (res : QueryRes) (limit : Option Nat) : ToolResult :=
  if res.rows.isEmpty then
    ToolResult.info (("Query executed. " ++ toString (res.rowCount.getD 0)) ++
      " row(s) affected. No rows returned.")
  else
    match limit with
    | some n =>
      if res.rows.length > n then
        ToolResult.payload res.fields (res.rows.take n) res.rowCount true
          (some res.rows.length) (some n)
      else
        ToolResult.payload res.fields res.rows res.rowCount false none none
    | none => ToolResult.payload res.fields res.rows res.rowCount false none none

/-- The `pg_query` tool handler: reject multi-statement text before
touching any connection; resolve the descriptor (an unknown label becomes
an error result via the outer `catch`); acquire a pool and borrow a
client (`withPool`, which resolves the descriptor a second time); run the
transaction; format the outcome.  Returns the result, the registry after
the call, and the effect trace. -/
def pgQuery (cfg : List DbConnection) (reg : Registry) (oracle : Oracle)
    (database query : String) (_params : Option (List Param)) (limit : Option Nat) :
    ToolResult × Registry × Trace :=
  if isSingleStatement query then
    match findConnection cfg database with
    | none =>
      (ToolResult.errorMsg (("Error: ") ++ labelNotFoundMsg cfg database), reg,
       { resolves := 1, borrows := 0, commands := [] })
    | some conn =>
      let pr := getOrCreatePool reg conn
      let rt := runTransaction conn.readOnly query oracle
      match rt.1 with
      | Except.error e =>
        (ToolResult.errorMsg (("Error: ") ++ e), pr.2,
         { resolves := 2, borrows := 1, commands := rt.2 })
      | Except.ok res =>
        (buildSuccess res limit, pr.2,
         { resolves := 2, borrows := 1, commands := rt.2 })
  else
    (ToolResult.errorMsg
       ("Error: Multi-statement queries are not allowed. Send one statement at a time."),
     reg, { resolves := 0, borrows := 0, commands := [] })

/-! ### Sample values used by the witness theorems -/

/-- A read-only sample descriptor. -/
def sampleConn : DbConnection :=
  { label := "prod", host := some ("db"), port := 5432, user := some ("u"),
    password := "pw", database := some ("d"), url := none, enabled := true,
    ssl := none, readOnly := true, poolSize := 5 }

/-- A read-write sample descriptor. -/
def sampleConnRW : DbConnection :=
  { sampleConn with label := "rw", readOnly := false }

/-- A second descriptor carrying a duplicate label. -/
def sampleConnDup : DbConnection :=
  { sampleConn with host := some ("other") }

/-- A disabled sample descriptor. -/
def sampleConnOff : DbConnection :=
  { sampleConn with label := "dev", enabled := false }

/-- An empty registry. -/
def sampleRegistry : Registry := { pools := [], nextId := 0, closed := [] }

/-- A registry already holding a pool for `sampleConn` under its current
fingerprint. -/
def sampleRegistry2 : Registry :=
  { pools := [("prod", { pool := 7, hash := connHash sampleConn })],
    nextId := 8, closed := [] }

/-- An oracle under which every statement succeeds. -/
def sampleOracle : Oracle :=
  { beginOutcome := Except.ok (), queryOutcome := Except.ok { fields := ["c"], rows := ["r"], rowCount := some 1 },
    commitOutcome := Except.ok (), rollbackOutcome := Except.ok () }

/-- An oracle under which the caller's statement fails and the rollback
itself also fails. -/
def sampleOracleErr : Oracle :=
  { sampleOracle with
      queryOutcome := Except.error ("boom"),
      rollbackOutcome := Except.error ("rollback also failed") }

/-! ### Lemmas about the scanner -/

/-- The suffix left by `skipToNewline` is no longer than its input. -/
theorem skipToNewline_length : ∀ (l r : List Char), skipToNewline l = some r → r.length ≤ l.length := by
  intro l
  induction l using skipToNewline.induct with
  | case1 => intro r h; simp [skipToNewline] at h
  | case2 rest => intro r h; simp [skipToNewline] at h; subst h; simp
  | case3 c rest hne ih =>
    intro r h
    rw [show skipToNewline (c :: rest) = skipToNewline rest from by simp [skipToNewline]] at h
    exact le_trans (ih r h) (by simp)

/-- The suffix left by `skipBlockComment` is no longer than its input. -/
theorem skipBlockComment_length : ∀ (l r : List Char), skipBlockComment l = some r → r.length ≤ l.length := by
  intro l
  induction l using skipBlockComment.induct with
  | case1 => intro r h; simp [skipBlockComment] at h
  | case2 rest => intro r h; simp [skipBlockComment] at h; subst h; simp; omega
  | case3 c rest hne ih =>
    intro r h
    rw [show skipBlockComment (c :: rest) = skipBlockComment rest from by simp [skipBlockComment]] at h
    exact le_trans (ih r h) (by simp)

/-- The suffix left by `skipSingleQuoted` is no longer than its input. -/
theorem skipSingleQuoted_length : ∀ (l : List Char), (skipSingleQuoted l).length ≤ l.length := by
  intro l
  induction l using skipSingleQuoted.induct with
  | case1 => simp [skipSingleQuoted]
  | case2 rest ih => simp [skipSingleQuoted]; omega
  | case3 rest h => simp [skipSingleQuoted]
  | case4 c rest h1 h2 ih =>
    rw [show skipSingleQuoted (c :: rest) = skipSingleQuoted rest from by simp [skipSingleQuoted]]
    exact le_trans ih (by simp)

/-- The suffix left by `skipDoubleQuoted` is no longer than its input. -/
theorem skipDoubleQuoted_length : ∀ (l : List Char), (skipDoubleQuoted l).length ≤ l.length := by
  intro l
  induction l using skipDoubleQuoted.induct with
  | case1 => simp [skipDoubleQuoted]
  | case2 rest => simp [skipDoubleQuoted]
  | case3 c rest hne ih =>
    rw [show skipDoubleQuoted (c :: rest) = skipDoubleQuoted rest from by simp [skipDoubleQuoted]]
    exact le_trans ih (by simp)

/-- The suffix left by `skipToTag` is no longer than its input. -/
theorem skipToTag_length : ∀ (tag l r : List Char), skipToTag tag l = some r → r.length ≤ l.length := by
  intro tag l
  induction l with
  | nil => intro r h; simp [skipToTag] at h
  | cons c rest ih =>
    intro r h
    rw [skipToTag] at h
    by_cases hm : matchesAt tag (c :: rest) = true
    · rw [if_pos hm] at h
      cases h
      simp [List.length_drop]
    · rw [if_neg hm] at h
      exact le_trans (ih r h) (by simp)

/-- Dropping a while-prefix never lengthens a list. -/
theorem dropWhile_len_le (p : Char → Bool) : ∀ (l : List Char), (l.dropWhile p).length ≤ l.length := by
  intro l
  induction l with
  | nil => simp [List.dropWhile]
  | cons c rest ih =>
    by_cases h : p c = true
    · rw [List.dropWhile_cons_of_pos h]; exact le_trans ih (by simp)
    · rw [List.dropWhile_cons_of_neg h]

/-- Any two fuels larger than the input length run the scan to the same
verdict: the fuel is an artifact of the embedding, not of the source. -/
theorem scanF_congr : ∀ (f1 : Nat) (l : List Char) (f2 : Nat),
    l.length < f1 → l.length < f2 → scanF f1 l = scanF f2 l := by
  intro f1
  induction f1 with
  | zero => intro l f2 h1 h2; exact absurd h1 (Nat.not_lt_zero _)
  | succ f ih =>
    intro l f2 h1 h2
    rcases f2 with _ | f2
    · exact absurd h2 (Nat.not_lt_zero _)
    rcases l with _ | ⟨ch, rest⟩
    · simp [scanF]
    simp only [List.length_cons] at h1 h2
    simp only [scanF]
    by_cases hd : ch = '-' ∧ rest.head? = some '-'
    · simp only [if_pos hd]
      cases hn : skipToNewline rest with
      | none => rfl
      | some r =>
        have hr := skipToNewline_length rest r hn
        exact ih r f2 (by omega) (by omega)
    · simp only [if_neg hd]
      by_cases hb : ch = '/' ∧ rest.head? = some '*'
      · simp only [if_pos hb]
        cases hc : skipBlockComment rest.tail with
        | none => rfl
        | some r =>
          have h3 := skipBlockComment_length rest.tail r hc
          have h4 : rest.tail.length ≤ rest.length := by cases rest <;> simp
          exact ih r f2 (by omega) (by omega)
      · simp only [if_neg hb]
        by_cases hq : ch = '\''
        · simp only [if_pos hq]
          have := skipSingleQuoted_length rest
          exact ih _ f2 (by omega) (by omega)
        · simp only [if_neg hq]
          by_cases hw : ch = '"'
          · simp only [if_pos hw]
            have := skipDoubleQuoted_length rest
            exact ih _ f2 (by omega) (by omega)
          · simp only [if_neg hw]
            by_cases hdl : ch = '$'
            · simp only [if_pos hdl]
              by_cases hh : (rest.dropWhile isWordChar).head? = some '$'
              · simp only [if_pos hh]
                cases ht : skipToTag ('$' :: (rest.takeWhile isWordChar ++ ['$']))
                    ((rest.dropWhile isWordChar).tail) with
                | none => rfl
                | some r =>
                  have h5 := skipToTag_length _ _ r ht
                  have h6 : (rest.dropWhile isWordChar).length ≤ rest.length :=
                    dropWhile_len_le isWordChar rest
                  have h7 : ((rest.dropWhile isWordChar).tail).length ≤
                      (rest.dropWhile isWordChar).length := by
                    cases rest.dropWhile isWordChar <;> simp
                  exact ih r f2 (by omega) (by omega)
              · simp only [if_neg hh]
                exact ih rest f2 (by omega) (by omega)
            · simp only [if_neg hdl]
              by_cases hs : ch = ';'
              · simp only [if_pos hs]
                by_cases ha : rest.any (fun c => !(isJsSpace c)) = true
                · simp only [if_pos ha]
                · simp only [if_neg ha]
                  exact ih rest f2 (by omega) (by omega)
              · simp only [if_neg hs]
                exact ih rest f2 (by omega) (by omega)

/-- `scan` agrees with `scanF` at any sufficient fuel. -/
theorem scan_eq_scanF (f : Nat) (l : List Char) (h : l.length < f) : scan l = scanF f l :=
  scanF_congr (l.length + 1) l f (Nat.lt_succ_self _) h

/-- At every fuel, the source's scan verdict equals the spec-side
condition that each out-of-context semicolon is followed by whitespace
only. -/
theorem scanF_eq_semiSuffF : ∀ (f : Nat) (l : List Char),
    scanF f l = (semiSuffF f l).all (fun r => r.all isJsSpace) := by
  intro f
  induction f with
  | zero => intro l; simp [scanF, semiSuffF]
  | succ f ih =>
    intro l
    rcases l with _ | ⟨ch, rest⟩
    · simp [scanF, semiSuffF]
    simp only [scanF, semiSuffF]
    by_cases hd : ch = '-' ∧ rest.head? = some '-'
    · simp only [if_pos hd]
      cases hn : skipToNewline rest with
      | none => simp
      | some r => exact ih r
    · simp only [if_neg hd]
      by_cases hb : ch = '/' ∧ rest.head? = some '*'
      · simp only [if_pos hb]
        cases hc : skipBlockComment rest.tail with
        | none => simp
        | some r => exact ih r
      · simp only [if_neg hb]
        by_cases hq : ch = '\''
        · simp only [if_pos hq]
          exact ih _
        · simp only [if_neg hq]
          by_cases hw : ch = '"'
          · simp only [if_pos hw]
            exact ih _
          · simp only [if_neg hw]
            by_cases hdl : ch = '$'
            · simp only [if_pos hdl]
              by_cases hh : (rest.dropWhile isWordChar).head? = some '$'
              · simp only [if_pos hh]
                cases ht : skipToTag ('$' :: (rest.takeWhile isWordChar ++ ['$']))
                    ((rest.dropWhile isWordChar).tail) with
                | none => simp
                | some r => exact ih r
              · simp only [if_neg hh]
                exact ih rest
            · simp only [if_neg hdl]
              by_cases hs : ch = ';'
              · simp only [if_pos hs]
                by_cases ha : rest.any (fun c => !(isJsSpace c)) = true
                · simp only [if_pos ha]
                  have hfalse : rest.all isJsSpace = false := by
                    rcases List.any_eq_true.mp ha with ⟨x, hx, hpx⟩
                    by_contra hcon
                    have hall := List.all_eq_true.mp (eq_true_of_ne_false hcon) x hx
                    simp [hall] at hpx
                  simp [hfalse]
                · simp only [if_neg ha]
                  have htrue : rest.all isJsSpace = true := by
                    rw [List.all_eq_true]
                    intro x hx
                    by_contra hc
                    exact ha (List.any_eq_true.mpr ⟨x, hx, by simpa using hc⟩)
                  simp [htrue, ih rest]
              · simp only [if_neg hs]
                exact ih rest

/-- Every whitespace-only text yields no out-of-context semicolon suffixes. -/
theorem semiSuffF_all_space : ∀ (f : Nat) (l : List Char),
    l.all isJsSpace = true → semiSuffF f l = [] := by
  intro f
  induction f with
  | zero => intro l _; simp [semiSuffF]
  | succ f ih =>
    intro l hl
    rcases l with _ | ⟨ch, rest⟩
    · simp [semiSuffF]
    have hch : isJsSpace ch = true := (List.all_eq_true.mp hl ch (by simp))
    have hrest : rest.all isJsSpace = true := by
      rw [List.all_eq_true]
      intro x hx
      exact List.all_eq_true.mp hl x (by simp [hx])
    have h1 : ¬(ch = '-' ∧ rest.head? = some '-') := by
      rintro ⟨hc, -⟩; subst hc; exact absurd hch (by decide)
    have h2 : ¬(ch = '/' ∧ rest.head? = some '*') := by
      rintro ⟨hc, -⟩; subst hc; exact absurd hch (by decide)
    have h3 : ¬(ch = '\'') := by
      intro hc; subst hc; exact absurd hch (by decide)
    have h4 : ¬(ch = '"') := by
      intro hc; subst hc; exact absurd hch (by decide)
    have h5 : ¬(ch = '$') := by
      intro hc; subst hc; exact absurd hch (by decide)
    have h6 : ¬(ch = ';') := by
      intro hc; subst hc; exact absurd hch (by decide)
    simp only [semiSuffF, if_neg h1, if_neg h2, if_neg h3, if_neg h4, if_neg h5, if_neg h6]
    exact ih rest hrest

/-- One continuing iteration of the loop does not change the verdict. -/
theorem step_scan : ∀ (l l' : List Char), step l = some l' → scan l = scan l' := by
  intro l l' h
  rcases l with _ | ⟨ch, rest⟩
  · simp [step] at h
  simp only [step] at h
  have hlen : (ch :: rest).length = rest.length + 1 := by simp
  simp only [scan, List.length_cons, scanF]
  by_cases hd : ch = '-' ∧ rest.head? = some '-'
  · rw [if_pos hd] at h ⊢
    rw [h]
    have := skipToNewline_length rest l' h
    exact (scan_eq_scanF (rest.length + 1) l' (by omega)).symm
  · rw [if_neg hd] at h ⊢
    by_cases hb : ch = '/' ∧ rest.head? = some '*'
    · rw [if_pos hb] at h ⊢
      rw [h]
      have h3 := skipBlockComment_length rest.tail l' h
      have h4 : rest.tail.length ≤ rest.length := by cases rest <;> simp
      exact (scan_eq_scanF (rest.length + 1) l' (by omega)).symm
    · rw [if_neg hb] at h ⊢
      by_cases hq : ch = '\''
      · rw [if_pos hq] at h ⊢
        cases h
        have := skipSingleQuoted_length rest
        exact (scan_eq_scanF (rest.length + 1) _ (by omega)).symm
      · rw [if_neg hq] at h ⊢
        by_cases hw : ch = '"'
        · rw [if_pos hw] at h ⊢
          cases h
          have := skipDoubleQuoted_length rest
          exact (scan_eq_scanF (rest.length + 1) _ (by omega)).symm
        · rw [if_neg hw] at h ⊢
          by_cases hdl : ch = '$'
          · rw [if_pos hdl] at h ⊢
            by_cases hh : (rest.dropWhile isWordChar).head? = some '$'
            · rw [if_pos hh] at h ⊢
              rw [h]
              have h5 := skipToTag_length _ _ l' h
              have h6 : (rest.dropWhile isWordChar).length ≤ rest.length :=
                dropWhile_len_le isWordChar rest
              have h7 : ((rest.dropWhile isWordChar).tail).length ≤
                  (rest.dropWhile isWordChar).length := by
                cases rest.dropWhile isWordChar <;> simp
              exact (scan_eq_scanF (rest.length + 1) l' (by omega)).symm
            · rw [if_neg hh] at h ⊢
              cases h
              exact (scan_eq_scanF _ _ (by omega)).symm
          · rw [if_neg hdl] at h ⊢
            by_cases hs : ch = ';'
            · rw [if_pos hs] at h ⊢
              by_cases ha : rest.any (fun c => !(isJsSpace c)) = true
              · rw [if_pos ha] at h
                cases h
              · rw [if_neg ha] at h ⊢
                cases h
                exact (scan_eq_scanF _ _ (by omega)).symm
            · rw [if_neg hs] at h ⊢
              cases h
              exact (scan_eq_scanF _ _ (by omega)).symm

/-- Reachability preserves the scan verdict. -/
theorem reach_scan : ∀ (l r : List Char), ScanReach l r → scan l = scan r := by
  intro l r h
  induction h with
  | refl l => rfl
  | tail l m r hs hmr ih => exact (step_scan l m hs).trans ih

/-- A run of tag characters followed by a non-tag character splits
`takeWhile` and `dropWhile` at that character. -/
theorem takeWhile_word_append (w : List Char) (c : Char) (r : List Char)
    (hw : w.all isWordChar = true) (hc : isWordChar c = false) :
    (w ++ c :: r).takeWhile isWordChar = w ∧ (w ++ c :: r).dropWhile isWordChar = c :: r := by
  induction w with
  | nil =>
    constructor
    · simp [List.takeWhile_cons, hc]
    · simp [List.dropWhile_cons, hc]
  | cons a t ih =>
    have ha : isWordChar a = true := List.all_eq_true.mp hw a (by simp)
    have ht : t.all isWordChar = true := by
      rw [List.all_eq_true]
      intro x hx
      exact List.all_eq_true.mp hw x (by simp [hx])
    obtain ⟨ih1, ih2⟩ := ih ht
    constructor
    · simp [List.takeWhile_cons, ha, ih1]
    · simp [List.dropWhile_cons, ha, ih2]

/-- An unterminated block comment makes the whole text scan as safe. -/
theorem scan_block_unterminated (rest : List Char) (h : skipBlockComment rest = none) :
    scan ('/' :: '*' :: rest) = true := by
  simp [scan, scanF, h]

/-- An unterminated dollar-quoted body makes the whole text scan as safe. -/
theorem scan_dollar_unterminated (w r2 : List Char)
    (hw : w.all isWordChar = true)
    (h : skipToTag ('$' :: (w ++ ['$'])) r2 = none) :
    scan ('$' :: (w ++ '$' :: r2)) = true := by
  obtain ⟨htake, hdrop⟩ := takeWhile_word_append w '$' r2 hw (by decide)
  simp [scan, scanF, hdrop, htake, h]

/-- An unterminated single-quoted literal consumes the whole remainder. -/
theorem noSingleQuoteCloser_skip : ∀ (l : List Char),
    noSingleQuoteCloser l = true → skipSingleQuoted l = [] := by
  intro l
  induction l using skipSingleQuoted.induct with
  | case1 => intro _; rfl
  | case2 rest ih =>
    intro h
    rw [show noSingleQuoteCloser ('\'' :: '\'' :: rest) = noSingleQuoteCloser rest from rfl] at h
    rw [show skipSingleQuoted ('\'' :: '\'' :: rest) = skipSingleQuoted rest from rfl]
    exact ih h
  | case3 rest hne =>
    intro h
    exfalso
    have : noSingleQuoteCloser ('\'' :: rest) = false := by
      simp [noSingleQuoteCloser]
    rw [this] at h
    cases h
  | case4 c rest h1 h2 ih =>
    intro h
    rw [show noSingleQuoteCloser (c :: rest) = noSingleQuoteCloser rest from by
      simp [noSingleQuoteCloser]] at h
    rw [show skipSingleQuoted (c :: rest) = skipSingleQuoted rest from by
      simp [skipSingleQuoted]]
    exact ih h

/-- A double-quote body with no closing quote consumes the whole remainder. -/
theorem no_dquote_skip : ∀ (l : List Char), ('"' ∉ l) → skipDoubleQuoted l = [] := by
  intro l
  induction l with
  | nil => intro _; rfl
  | cons c rest ih =>
    intro h
    have hc : ¬(c = '"') := fun hc => h (by simp [hc])
    rw [show skipDoubleQuoted (c :: rest) = skipDoubleQuoted rest from by
      simp [skipDoubleQuoted]]
    exact ih (fun hm => h (by simp [hm]))

/-- An opening single quote whose literal runs to the end of the input
makes the whole text scan as safe. -/
theorem scan_squote_consumed (rest : List Char) (h : skipSingleQuoted rest = []) :
    scan ('\'' :: rest) = true := by
  simp [scan, scanF, h]

/-- An opening double quote whose identifier runs to the end of the input
makes the whole text scan as safe. -/
theorem scan_dquote_consumed (rest : List Char) (h : skipDoubleQuoted rest = []) :
    scan ('"' :: rest) = true := by
  simp [scan, scanF, h]

/-- A dollar sign that opens no dollar-quote is passed over: the next
iteration starts at the character after it. -/
theorem step_dollar_bare (rest : List Char)
    (h : (rest.dropWhile isWordChar).head? ≠ some '$') :
    step ('$' :: rest) = some rest := by
  simp [step, h]

/-! ### Claims about the statement classifier -/

/-- Claim C1: for every SQL text, `isSingleStatement` returns true if and
only if the text, outside line comments, block comments, single-quoted
literals (with doubled-quote escaping), double-quoted identifiers, and
dollar-tagged bodies, contains no semicolon followed by further
non-whitespace content; in particular, a text with no out-of-context
semicolon at all collects no suffixes and the condition holds vacuously,
so the classifier returns true. -/
theorem c1_isSingleStatement_iff_no_unquoted_semicolon (s : String) :
    (isSingleStatement s = (outsideSemiSuffixes s.data).all (fun r => r.all isJsSpace)) ∧
    (outsideSemiSuffixes s.data = [] → isSingleStatement s = true) := by
  constructor
  · exact scanF_eq_semiSuffF (s.data.length + 1) s.data
  · intro h
    show scan s.data = true
    rw [show scan s.data = scanF (s.data.length + 1) s.data from rfl, scanF_eq_semiSuffF,
        show semiSuffF (s.data.length + 1) s.data = outsideSemiSuffixes s.data from rfl, h]
    rfl

/-- Witness for C1 at a text whose only semicolon is inside a quoted
literal: no suffix is collected and the classifier accepts. -/
theorem c1_isSingleStatement_iff_no_unquoted_semicolon_witness :
    isSingleStatement ("SELECT 'a;b'") = true :=
  (c1_isSingleStatement_iff_no_unquoted_semicolon ("SELECT 'a;b'")).2 (by decide)

/-- Claim C5: `isSingleStatement` accepts the empty text, every
whitespace-only text, the lone semicolon, and every text in which each
out-of-context semicolon is followed by whitespace only; it rejects two
consecutive semicolons. -/
theorem c5_edge_cases :
    isSingleStatement ("") = true ∧
    (∀ s : String, s.data.all isJsSpace = true → isSingleStatement s = true) ∧
    isSingleStatement (";") = true ∧
    (∀ s : String, (outsideSemiSuffixes s.data).all (fun r => r.all isJsSpace) = true →
      isSingleStatement s = true) ∧
    isSingleStatement (";;") = false := by
  refine ⟨by decide, ?_, by decide, ?_, by decide⟩
  · intro s hs
    show scan s.data = true
    rw [show scan s.data = scanF (s.data.length + 1) s.data from rfl, scanF_eq_semiSuffF,
        semiSuffF_all_space _ _ hs]
    rfl
  · intro s hs
    show scan s.data = true
    rw [show scan s.data = scanF (s.data.length + 1) s.data from rfl, scanF_eq_semiSuffF]
    exact hs

/-- Witness for C5 at concrete inputs: a whitespace-only text containing a
no-break space, and a text whose only out-of-context semicolon is followed
by a no-break space, a plain space, and a tab. -/
theorem c5_edge_cases_witness :
    isSingleStatement (" \u00a0\t ") = true ∧ isSingleStatement ("a;\u00a0 \t") = true :=
  ⟨c5_edge_cases.2.1 (" \u00a0\t ") (by decide),
   c5_edge_cases.2.2.2.1 ("a;\u00a0 \t") (by decide)⟩

/-- Claim C6: when the scan reaches an unterminated block comment or an
unterminated dollar-quoted body (so no earlier out-of-context semicolon
was followed by content, or the scan would have stopped), the construct
consumes the remainder and the verdict is safe, whatever the remainder
contains. -/
theorem c6_unterminated_comment_and_dollar_safe (s : String) (rest w r2 : List Char) :
    (ScanReach s.data ('/' :: '*' :: rest) → skipBlockComment rest = none →
      isSingleStatement s = true) ∧
    (ScanReach s.data ('$' :: (w ++ '$' :: r2)) → w.all isWordChar = true →
      skipToTag ('$' :: (w ++ ['$'])) r2 = none → isSingleStatement s = true) := by
  constructor
  · intro hreach hnone
    show scan s.data = true
    rw [reach_scan _ _ hreach]
    exact scan_block_unterminated rest hnone
  · intro hreach hw hnone
    show scan s.data = true
    rw [reach_scan _ _ hreach]
    exact scan_dollar_unterminated w r2 hw hnone

/-- Witness for C6: both unterminated constructs hide a semicolon followed
by content, and the classifier still accepts. -/
theorem c6_unterminated_comment_and_dollar_safe_witness :
    isSingleStatement ("a/*; DROP TABLE x") = true ∧
    isSingleStatement ("a$t$; DROP TABLE x") = true := by
  constructor
  · exact (c6_unterminated_comment_and_dollar_safe ("a/*; DROP TABLE x")
      (("; DROP TABLE x").data) [] []).1
      (ScanReach.tail _ _ _ (by decide) (ScanReach.refl _))
      (by decide)
  · exact (c6_unterminated_comment_and_dollar_safe ("a$t$; DROP TABLE x")
      [] (['t']) (("; DROP TABLE x").data)).2
      (ScanReach.tail _ _ _ (by decide) (ScanReach.refl _))
      (by decide) (by decide)

/-- Claim C7: a dollar sign that opens no matching dollar-quote is not a
string opener: the scan passes over it into the next character with no
context entered, so the verdict is decided by the semicolon rule alone;
in particular both positional-parameter examples are accepted. -/
theorem c7_bare_dollar_not_a_string_opener (rest : List Char) :
    ((rest.dropWhile isWordChar).head? ≠ some '$' →
      step ('$' :: rest) = some rest ∧ scan ('$' :: rest) = scan rest) ∧
    isSingleStatement ("SELECT $1") = true ∧
    isSingleStatement ("SELECT * FROM t WHERE id = $1 AND name = $2") = true := by
  refine ⟨?_, by decide, by decide⟩
  intro h
  have hstep := step_dollar_bare rest h
  exact ⟨hstep, step_scan _ _ hstep⟩

/-- Witness for C7 at the parameter placeholder `$1`. -/
theorem c7_bare_dollar_not_a_string_opener_witness :
    step ('$' :: ('1' :: [])) = some ('1' :: []) ∧
    scan ('$' :: ('1' :: [])) = scan ('1' :: []) :=
  (c7_bare_dollar_not_a_string_opener (['1'])).1 (by decide)

/-- Claim C10: an unterminated single-quoted literal or double-quoted
identifier likewise consumes the remainder of the input: if the scan
reaches the opening quote and no closer follows, the verdict is safe even
when the unterminated span hides semicolons followed by content. -/
theorem c10_unterminated_quotes_safe (s : String) (rest : List Char) :
    (ScanReach s.data ('\'' :: rest) → noSingleQuoteCloser rest = true →
      isSingleStatement s = true) ∧
    (ScanReach s.data ('"' :: rest) → ('"' ∉ rest) → isSingleStatement s = true) := by
  constructor
  · intro hr hn
    show scan s.data = true
    rw [reach_scan _ _ hr]
    exact scan_squote_consumed rest (noSingleQuoteCloser_skip rest hn)
  · intro hr hn
    show scan s.data = true
    rw [reach_scan _ _ hr]
    exact scan_dquote_consumed rest (no_dquote_skip rest hn)

/-- Witness for C10: both unterminated quotes hide a semicolon followed by
content, and the classifier still accepts. -/
theorem c10_unterminated_quotes_safe_witness :
    isSingleStatement ("a'; DROP TABLE x") = true ∧
    isSingleStatement ("a\"; DROP TABLE x") = true := by
  constructor
  · exact (c10_unterminated_quotes_safe ("a'; DROP TABLE x") (("; DROP TABLE x").data)).1
      (ScanReach.tail _ _ _ (by decide) (ScanReach.refl _)) (by decide)
  · exact (c10_unterminated_quotes_safe ("a\"; DROP TABLE x") (("; DROP TABLE x").data)).2
      (ScanReach.tail _ _ _ (by decide) (ScanReach.refl _)) (by decide)

/-! ### Lemmas about the pool registry and the config pipeline -/

/-- A `Map.set` makes the key map to the new entry. -/
theorem mapGet_mapSet : ∀ (m : List (String × PoolEntry)) (k : String) (v : PoolEntry),
    mapGet (mapSet m k v) k = some v := by
  intro m k v
  induction m with
  | nil => simp [mapSet, mapGet, List.find?]
  | cons a t ih =>
    rcases a with ⟨ka, va⟩
    by_cases hk : (ka == k) = true
    · simp [mapSet, hk, mapGet, List.find?]
    · rw [show mapSet ((ka, va) :: t) k v = (ka, va) :: mapSet t k v from by
        simp [mapSet, hk]]
      rw [show mapGet ((ka, va) :: mapSet t k v) k = mapGet (mapSet t k v) k from by
        simp [mapGet, List.find?, hk]]
      exact ih

/-- Membership in `enumFrom` yields the positional picture. -/
theorem mem_enumFrom_getElem : ∀ (l : List DbConnection) (n i : Nat) (a : DbConnection),
    (i, a) ∈ l.enumFrom n → n ≤ i ∧ l[i - n]? = some a := by
  intro l
  induction l with
  | nil => intro n i a h; simp [List.enumFrom] at h
  | cons b t ih =>
    intro n i a h
    rw [show List.enumFrom n (b :: t) = (n, b) :: List.enumFrom (n + 1) t from rfl] at h
    rcases List.mem_cons.mp h with h1 | h1
    · cases h1
      exact ⟨le_refl n, by simp⟩
    · obtain ⟨hle, hget⟩ := ih (n + 1) i a h1
      refine ⟨by omega, ?_⟩
      have hi : i - n = (i - (n + 1)) + 1 := by omega
      rw [hi]
      simpa using hget

/-- `find?` returns the element at the found index. -/
theorem findIdx_find? : ∀ (l : List DbConnection) (p : DbConnection → Bool),
    l.findIdx p < l.length → l.find? p = l[l.findIdx p]? := by
  intro l p
  induction l with
  | nil => intro h; simp at h
  | cons a t ih =>
    intro h
    by_cases hp : p a = true
    · rw [List.find?_cons_of_pos _ hp, List.findIdx_cons]
      simp [hp]
    · rw [List.find?_cons_of_neg _ hp, List.findIdx_cons]
      simp only [hp, cond_false]
      rw [List.findIdx_cons] at h
      simp only [hp, cond_false] at h
      have h2 : t.findIdx p < t.length := by
        simp only [List.length_cons] at h
        omega
      simpa using ih h2

/-- Every published element is the first occurrence of its label in the
raw list. -/
theorem mem_dedupByLabel (connections : List DbConnection) (c : DbConnection) :
    c ∈ dedupByLabel connections →
    connections.find? (fun x => x.label == c.label) = some c := by
  intro h
  simp only [dedupByLabel, List.mem_map] at h
  obtain ⟨ic, hic, hsnd⟩ := h
  obtain ⟨hmem, hkeep⟩ := List.mem_filter.mp hic
  rcases ic with ⟨i, c2⟩
  have hs2 : c = c2 := hsnd.symm
  subst hs2
  have hbeq : connections.findIdx (fun x => x.label == c.label) = i := by
    simpa using hkeep
  have hpos := mem_enumFrom_getElem connections 0 i c (by simpa [List.enum] using hmem)
  have hget : connections[i]? = some c := by simpa using hpos.2
  have hlt : i < connections.length := by
    rcases List.getElem?_eq_some.mp hget with ⟨hl, -⟩
    exact hl
  rw [findIdx_find? connections _ (by rw [hbeq]; exact hlt), hbeq]
  exact hget

/-- Indices in `enumFrom` strictly increase. -/
theorem enumFrom_pairwise_lt (l : List DbConnection) :
    ∀ n, (l.enumFrom n).Pairwise (fun a b => a.1 < b.1) := by
  induction l with
  | nil => intro n; simp [List.enumFrom]
  | cons b t ih =>
    intro n
    rw [show List.enumFrom n (b :: t) = (n, b) :: List.enumFrom (n + 1) t from rfl]
    refine List.Pairwise.cons ?_ (ih (n + 1))
    intro x hx
    have := (mem_enumFrom_getElem t (n + 1) x.1 x.2 (by simpa using hx)).1
    omega

/-- Deduplicated lists carry pairwise distinct labels. -/
theorem dedupByLabel_pairwise (connections : List DbConnection) :
    (dedupByLabel connections).Pairwise (fun a b => a.label ≠ b.label) := by
  rw [dedupByLabel, List.pairwise_map]
  have hsub : (connections.enum.filter
      (fun ic => connections.findIdx (fun x => x.label == ic.2.label) == ic.1)).Sublist
      connections.enum := List.filter_sublist _
  have hpw0 : (connections.enum).Pairwise (fun a b => a.1 < b.1) := by
    simpa [List.enum] using enumFrom_pairwise_lt connections 0
  have hpw := hpw0.sublist hsub
  refine List.Pairwise.imp_of_mem ?_ hpw
  intro a b ha hb hlt heq
  obtain ⟨-, hka⟩ := List.mem_filter.mp ha
  obtain ⟨-, hkb⟩ := List.mem_filter.mp hb
  have h1 : connections.findIdx (fun x => x.label == a.2.label) = a.1 := by simpa using hka
  have h2 : connections.findIdx (fun x => x.label == b.2.label) = b.1 := by simpa using hkb
  rw [heq] at h1
  rw [h1] at h2
  omega

/-- Published elements come from the deduplicated, enabled-filtered list. -/
theorem mem_publish (connections : List DbConnection) (labelFilter : Option String)
    (c : DbConnection) (h : c ∈ publishConnections connections labelFilter) :
    c ∈ dedupByLabel connections ∧ (c.enabled != false) = true := by
  have hmem : c ∈ (dedupByLabel connections).filter (fun c => c.enabled != false) := by
    rcases labelFilter with _ | f
    · exact h
    · exact (List.mem_filter.mp h).1
  exact ⟨(List.mem_filter.mp hmem).1, (List.mem_filter.mp hmem).2⟩

/-! ### Claims about the config pipeline, the registry, and the handler -/

/-- Claim C8: the published connection list keeps at most one descriptor
per label (the first raw occurrence), excludes disabled descriptors, and
respects the process-wide label filter. -/
theorem c8_published_snapshot (connections : List DbConnection) (labelFilter : Option String) :
    ((publishConnections connections labelFilter).Pairwise (fun a b => a.label ≠ b.label)) ∧
    (∀ c, c ∈ publishConnections connections labelFilter →
      connections.find? (fun x => x.label == c.label) = some c) ∧
    (∀ c, c ∈ publishConnections connections labelFilter → c.enabled = true) ∧
    (∀ fl c, labelFilter = some fl → c ∈ publishConnections connections labelFilter →
      c.label = fl) := by
  refine ⟨?_, ?_, ?_, ?_⟩
  · have hded := dedupByLabel_pairwise connections
    have h1 := hded.sublist
      (List.filter_sublist (l := dedupByLabel connections) (p := fun c => c.enabled != false))
    rcases labelFilter with _ | f
    · exact h1
    · exact h1.sublist (List.filter_sublist _)
  · intro c hc
    exact mem_dedupByLabel connections c (mem_publish connections labelFilter c hc).1
  · intro c hc
    have := (mem_publish connections labelFilter c hc).2
    cases he : c.enabled
    · rw [he] at this; simp at this
    · rfl
  · intro fl c hfl hc
    subst hfl
    have := (List.mem_filter.mp hc).2
    simpa using this

/-- Witness for C8: a raw list with a duplicated label and a disabled
descriptor; the published snapshot keeps the first `prod` descriptor,
which is enabled, and a `prod` label filter keeps its label. -/
theorem c8_published_snapshot_witness :
    ([sampleConn, sampleConnDup, sampleConnOff].find?
        (fun x => x.label == sampleConn.label) = some sampleConn) ∧
    sampleConn.enabled = true ∧
    sampleConn.label = "prod" := by
  refine ⟨?_, ?_, ?_⟩
  · exact (c8_published_snapshot [sampleConn, sampleConnDup, sampleConnOff] none).2.1
      sampleConn (by decide)
  · exact (c8_published_snapshot [sampleConn, sampleConnDup, sampleConnOff] none).2.2.1
      sampleConn (by decide)
  · exact (c8_published_snapshot [sampleConn, sampleConnDup, sampleConnOff] (some ("prod"))).2.2.2
      ("prod") sampleConn rfl (by decide)

/-- Claim C9: with an unchanged fingerprint the registry returns the
existing pool and stays unchanged; with a changed or missing entry it
closes the old pool (if any) and installs exactly one fresh pool under
the label. -/
theorem c9_pool_reuse_and_swap (r : Registry) (conn : DbConnection) :
    (∀ existing, mapGet r.pools conn.label = some existing →
      existing.hash = connHash conn →
      getOrCreatePool r conn = (existing.pool, r)) ∧
    (∀ existing, mapGet r.pools conn.label = some existing →
      existing.hash ≠ connHash conn →
      (getOrCreatePool r conn).1 = r.nextId ∧
      (getOrCreatePool r conn).2.nextId = r.nextId + 1 ∧
      mapGet (getOrCreatePool r conn).2.pools conn.label =
        some { pool := r.nextId, hash := connHash conn } ∧
      existing.pool ∈ (getOrCreatePool r conn).2.closed) ∧
    (mapGet r.pools conn.label = none →
      (getOrCreatePool r conn).1 = r.nextId ∧
      (getOrCreatePool r conn).2.nextId = r.nextId + 1 ∧
      mapGet (getOrCreatePool r conn).2.pools conn.label =
        some { pool := r.nextId, hash := connHash conn }) := by
  refine ⟨?_, ?_, ?_⟩
  · intro ex hex hhash
    simp [getOrCreatePool, hex, hhash]
  · intro ex hex hhash
    refine ⟨?_, ?_, ?_, ?_⟩ <;> simp [getOrCreatePool, hex, hhash, mapGet_mapSet]
  · intro hnone
    refine ⟨?_, ?_, ?_⟩ <;> simp [getOrCreatePool, hnone, mapGet_mapSet]

/-- Witness for C9: a registry holding a matching entry returns it
unchanged, and an empty registry installs the fresh pool `0`. -/
theorem c9_pool_reuse_and_swap_witness :
    getOrCreatePool sampleRegistry2 sampleConn = (7, sampleRegistry2) ∧
    (getOrCreatePool sampleRegistry sampleConnRW).1 = 0 := by
  constructor
  · exact (c9_pool_reuse_and_swap sampleRegistry2 sampleConn).1
      ({ pool := 7, hash := connHash sampleConn }) (by decide) (by decide)
  · exact ((c9_pool_reuse_and_swap sampleRegistry sampleConnRW).2.2 (by decide)).1

/-- The first statement a transaction issues is always the `BEGIN` variant
selected by the `readOnly` flag, whatever the outcomes. -/
theorem runTransaction_head (ro : Bool) (q : String) (o : Oracle) :
    (runTransaction ro q o).2.head? =
      some (if ro then ("BEGIN TRANSACTION READ ONLY") else ("BEGIN")) := by
  rw [runTransaction]
  cases o.beginOutcome with
  | error e => simp
  | ok u =>
    cases o.queryOutcome with
    | error e => simp
    | ok r =>
      cases o.commitOutcome with
      | error e => simp
      | ok u2 => simp

/-- Claim C2: a multi-statement query is rejected before anything else
happens: the handler returns the rejection error, resolves no descriptor,
creates or borrows from no pool, and leaves the registry unchanged. -/
theorem c2_multi_statement_rejected_without_connection
    (cfg : List DbConnection) (reg : Registry) (oracle : Oracle)
    (database query : String) (params : Option (List Param)) (limit : Option Nat) :
    isSingleStatement query = false →
    pgQuery cfg reg oracle database query params limit =
      (ToolResult.errorMsg
         ("Error: Multi-statement queries are not allowed. Send one statement at a time."),
       reg, { resolves := 0, borrows := 0, commands := [] }) := by
  intro h
  simp [pgQuery, h]

/-- Witness for C2 at a stacked-statement query. -/
theorem c2_multi_statement_rejected_without_connection_witness :
    pgQuery [sampleConn] sampleRegistry sampleOracle ("prod") ("SELECT 1; SELECT 2") none none =
      (ToolResult.errorMsg
         ("Error: Multi-statement queries are not allowed. Send one statement at a time."),
       sampleRegistry, { resolves := 0, borrows := 0, commands := [] }) :=
  c2_multi_statement_rejected_without_connection
    [sampleConn] sampleRegistry sampleOracle ("prod") ("SELECT 1; SELECT 2") none none
    (by decide)

/-- Claim C3: when the statement fails inside the opened transaction, the
handler issues `ROLLBACK`, suppresses the rollback's own outcome, and
returns an error carrying the original execution error's message — under
every rollback outcome. -/
theorem c3_rollback_preserves_original_error
    (cfg : List DbConnection) (reg : Registry) (oracle : Oracle)
    (database query : String) (params : Option (List Param)) (limit : Option Nat)
    (conn : DbConnection) (e : String)
    (h1 : isSingleStatement query = true)
    (h2 : findConnection cfg database = some conn)
    (h3 : oracle.beginOutcome = Except.ok ())
    (h4 : oracle.queryOutcome = Except.error e) :
    (pgQuery cfg reg oracle database query params limit).1 =
      ToolResult.errorMsg (("Error: ") ++ e) ∧
    ("ROLLBACK" ∈ (pgQuery cfg reg oracle database query params limit).2.2.commands) ∧
    (∀ rb, (pgQuery cfg reg { oracle with rollbackOutcome := rb }
        database query params limit).1 = ToolResult.errorMsg (("Error: ") ++ e)) := by
  refine ⟨?_, ?_, ?_⟩
  · simp [pgQuery, runTransaction, h1, h2, h3, h4]
  · simp [pgQuery, runTransaction, h1, h2, h3, h4]
  · intro rb
    simp [pgQuery, runTransaction, h1, h2, h3, h4]

/-- Witness for C3 under an oracle whose statement and rollback both
fail. -/
theorem c3_rollback_preserves_original_error_witness :
    (pgQuery [sampleConn] sampleRegistry sampleOracleErr ("prod") ("SELECT 1") none none).1 =
      ToolResult.errorMsg ("Error: boom") :=
  (c3_rollback_preserves_original_error [sampleConn] sampleRegistry sampleOracleErr
    ("prod") ("SELECT 1") none none sampleConn ("boom")
    (by decide) (by decide) (by decide) (by decide)).1

/-- Claim C4: a call that reaches execution opens the transaction with
`BEGIN TRANSACTION READ ONLY` exactly when the resolved descriptor's
`readOnly` flag is true, and with plain `BEGIN` when it is false; the
flag itself defaults to true when the raw field is absent. -/
theorem c4_transaction_mode_matches_readOnly
    (cfg : List DbConnection) (reg : Registry) (oracle : Oracle)
    (database query : String) (params : Option (List Param)) (limit : Option Nat)
    (conn : DbConnection)
    (h1 : isSingleStatement query = true)
    (h2 : findConnection cfg database = some conn) :
    (((pgQuery cfg reg oracle database query params limit).2.2.commands.head? =
        some ("BEGIN TRANSACTION READ ONLY")) ↔ conn.readOnly = true) ∧
    (((pgQuery cfg reg oracle database query params limit).2.2.commands.head? =
        some ("BEGIN")) ↔ conn.readOnly = false) ∧
    readOnlyDefault none = true := by
  have hcmd : (pgQuery cfg reg oracle database query params limit).2.2.commands =
      (runTransaction conn.readOnly query oracle).2 := by
    simp only [pgQuery, h1, h2, if_true]
    cases hrt : (runTransaction conn.readOnly query oracle).1 <;> simp [hrt]
  refine ⟨?_, ?_, rfl⟩ <;> rw [hcmd, runTransaction_head] <;>
    cases hro : conn.readOnly <;> simp

/-- Witness for C4: the read-only sample descriptor opens a read-only
transaction; the read-write one opens a plain transaction. -/
theorem c4_transaction_mode_matches_readOnly_witness :
    ((pgQuery [sampleConn] sampleRegistry sampleOracle ("prod") ("SELECT 1")
        none none).2.2.commands.head? = some ("BEGIN TRANSACTION READ ONLY")) ∧
    ((pgQuery [sampleConnRW] sampleRegistry sampleOracle ("rw") ("SELECT 1")
        none none).2.2.commands.head? = some ("BEGIN")) := by
  constructor
  · exact (c4_transaction_mode_matches_readOnly [sampleConn] sampleRegistry sampleOracle
      ("prod") ("SELECT 1") none none sampleConn (by decide) (by decide)).1.mpr rfl
  · exact (c4_transaction_mode_matches_readOnly [sampleConnRW] sampleRegistry sampleOracle
      ("rw") ("SELECT 1") none none sampleConnRW (by decide) (by decide)).2.1.mpr rfl

end MultiPostgres





